import Mathlib

/-!
Verification development for the pluggable caching subsystem of the
gkit-layout repository (package pkg/cache: cache.go, redis.go, options.go).

The Go code is shallowly embedded as executable Lean definitions:

- byte payloads become lists of naturals;
- Go durations (int64 nanoseconds) become naturals measured in nanoseconds
  (every duration appearing in the verified claims is nonnegative);
- the freecache store behind the in-process backend and the redis store
  behind the networked backend are modelled at their interface boundary as
  association lists of entries carrying an optional absolute expiry instant,
  with an explicit current-time field in the state;
- fallible operations return Except values paired with the updated state;
- the unique lock identifiers produced by uuid.NewUUID are modelled by a
  counter in the state, each generation consuming one counter value;
- a possible storage-layer write failure (freecache entry-too-large, redis
  network fault) is injected through a setFails flag in the state;
- the unbounded retry loop of the networked SaveRaw is given a fuel
  parameter; exhausting the fuel yields the distinguished retryBudget
  error, which is a modelling artifact and is unreachable under the
  hypotheses of the theorems below.

A separate small-step transition system (namespace Stampede) embeds the
networked SaveRaw code for N concurrent callers of the same missing key, in
order to settle the anti-stampede property.
-/

namespace GkitCache

/-- Raw byte payloads ([]byte in Go). A nil slice and an empty slice agree on
every operation the code performs on payloads, so both are the empty list. -/
abbrev Bytes := List Nat

/-- The error values surfaced by the cache package. The four sentinel errors
declared at the top of cache.go are constructors of their own; errors built
ad hoc with errors.New carry their message; errors.Wrap with a context
message is wrapped; a failure of the external store client is netFail; an
error returned by a caller-supplied compute function is appErr. retryBudget
is a modelling artifact of the fuel parameter, not a program error. -/
inductive Err where
  | notFound
  | lockAcquired
  | lockNotOwned
  | invalidParams
  | newErr (msg : String)
  | wrapped (msg : String)
  | netFail
  | appErr (code : Nat)
  | retryBudget
deriving DecidableEq, Repr

/-- The per-call options of SaveRaw (struct saveOptions in cache.go). -/
structure SaveOpts where
  forceRefresh : Bool := false
  preventCacheMiss : Bool := false
  nilExpiration : Nat := 0
deriving DecidableEq, Repr

/-- WithForceRefresh in cache.go. -/
def withForceRefresh : SaveOpts → SaveOpts :=
  fun o => { o with forceRefresh := true }

/-- WithPreventCacheMiss in cache.go. -/
def withPreventCacheMiss (expiration : Nat) : SaveOpts → SaveOpts :=
  fun o => { o with preventCacheMiss := true, nilExpiration := expiration }

/-- Folding a list of SaveOption functions over the zero-valued options
struct, as done at the top of both SaveRaw implementations. -/
def applySaveOpts (os : List (SaveOpts → SaveOpts)) : SaveOpts :=
  os.foldl (fun a f => f a) {}

/-- Association-list lookup keyed by strings; the first binding wins. -/
def alookup {α : Type} : List (String × α) → String → Option α
  | [], _ => none
  | (k2, v) :: rest, k => if k2 = k then some v else alookup rest k

/-- Insert or overwrite a binding; a map-style set, modelled by shadowing. -/
def aset {α : Type} (l : List (String × α)) (k : String) (v : α) :
    List (String × α) :=
  (k, v) :: l

/-- Remove every binding of a key; a map-style delete. -/
def adel {α : Type} : List (String × α) → String → List (String × α)
  | [], _ => []
  | (k2, v) :: rest, k =>
    if k2 = k then adel rest k else (k2, v) :: adel rest k

/-- Whole seconds of a duration given in nanoseconds, truncating toward
zero, as int(expiration.Seconds()) does in memoryCache.Set. -/
def durSeconds (d : Nat) : Nat := d / 1000000000

/-- The trace of externally visible operations one SaveRaw call performs, in
order. This is how the theorems speak about which subsystems a call touched. -/
inductive Event where
  | getRaw
  | lockCall
  | unlockCall
  | computeCall
  | setCall
  | sleepRetry
deriving DecidableEq, Repr

/-! ## In-process backend (memoryCache, second half of cache.go) -/

/-- The configuration fields of memoryCache: the key namespace (field named
after the data-key namespace string) and the lock namespace. -/
structure MemCfg where
  keyPre : String
  lockPre : String
deriving DecidableEq, Repr

/-- One stored freecache entry: payload plus an optional absolute expiry
instant in seconds; none means the entry never expires. -/
structure MemEntry where
  data : Bytes
  expireAt : Option Nat
deriving DecidableEq, Repr

/-- The mutable state of the in-process backend: the freecache store, the
lock map (lock key to holder token), the uuid counter, the current time in
seconds, and the injected storage-failure flag. -/
structure MemState where
  store : List (String × MemEntry)
  locks : List (String × Nat)
  tokenCtr : Nat
  now : Nat
  setFails : Bool
deriving DecidableEq, Repr

/-- Model of freecache Set at its interface: an expireSeconds greater than
zero makes the entry expire that many seconds from now, zero means it never
expires; setFails injects the storage failure freecache can report. -/
def fcSet (s : MemState) (k : String) (data : Bytes) (expireSeconds : Nat) :
    Except Unit Unit × MemState :=
  if s.setFails then (.error (), s)
  else
    (.ok (),
     { s with
       store := aset s.store k
         ⟨data, if 0 < expireSeconds then some (s.now + expireSeconds) else none⟩ })

/-- Model of freecache Get at its interface: an absent or expired entry is
freecache.ErrNotFound (the error case), otherwise the stored payload. -/
def fcGet (s : MemState) (k : String) : Except Unit Bytes :=
  match alookup s.store k with
  | none => .error ()
  | some e =>
    match e.expireAt with
    | none => .ok e.data
    | some t => if t ≤ s.now then .error () else .ok e.data

/-- memoryCache.Set for a raw []byte value (the only value shape SaveRaw
persists): prepend the key namespace, truncate the expiration to whole
seconds when positive, and write through freecache. -/
def memSet (c : MemCfg) (s : MemState) (key : String) (data : Bytes)
    (expiration : Nat) : Except Err Unit × MemState :=
  let fullKey := c.keyPre ++ key
  let expireSeconds := if 0 < expiration then durSeconds expiration else 0
  match fcSet s fullKey data expireSeconds with
  | (.error _, s1) => (.error (.wrapped "cache: failed to set value in freecache"), s1)
  | (.ok _, s1) => (.ok (), s1)

/-- memoryCache.GetRaw: freecache miss becomes the NotFound sentinel. -/
def memGetRaw (c : MemCfg) (s : MemState) (key : String) : Except Err Bytes :=
  match fcGet s (c.keyPre ++ key) with
  | .error _ => .error .notFound
  | .ok data => .ok data

/-- memoryCache.Exists: absence is an ordinary false, never an error. -/
def memExists (c : MemCfg) (s : MemState) (key : String) : Except Err Bool :=
  match fcGet s (c.keyPre ++ key) with
  | .error _ => .ok false
  | .ok _ => .ok true

/-- The compute-and-persist tail of memoryCache.SaveRaw (after the cache
check): run the compute function, then persist under the negative-cache
expiration when the result is empty and PreventCacheMiss is set, otherwise
under the normal expiration; a persist failure is returned as the error. -/
def memSaveRawCore (c : MemCfg) (s : MemState) (key : String)
    (fn : Except Err Bytes) (expiration : Nat) (opts : SaveOpts) :
    Except Err Bytes × MemState × List Event :=
  match fn with
  | .error e => (.error e, s, [.computeCall])
  | .ok result =>
    let exp :=
      if result.isEmpty && opts.preventCacheMiss then
        if 0 < opts.nilExpiration then opts.nilExpiration else expiration
      else expiration
    match memSet c s key result exp with
    | (.error e, s1) => (.error e, s1, [.computeCall, .setCall])
    | (.ok _, s1) => (.ok result, s1, [.computeCall, .setCall])

/-- memoryCache.SaveRaw: unless ForceRefresh is set, a cache hit returns at
once; a non-NotFound read failure propagates; otherwise compute and
persist. The caller-supplied compute function is embedded as the value it
returns. -/
def memSaveRaw (c : MemCfg) (s : MemState) (key : String)
    (fn : Except Err Bytes) (expiration : Nat) (opts : SaveOpts) :
    Except Err Bytes × MemState × List Event :=
  if opts.forceRefresh then memSaveRawCore c s key fn expiration opts
  else
    match memGetRaw c s key with
    | .ok data => (.ok data, s, [.getRaw])
    | .error e =>
      if e = .notFound then
        let out := memSaveRawCore c s key fn expiration opts
        (out.1, out.2.1, .getRaw :: out.2.2)
      else (.error e, s, [.getRaw])

/-- memoryCache.Lock: under the lock mutex, fail with the LockAlreadyAcquired
sentinel when the lock key is present, otherwise record a freshly generated
token and return it. -/
def memLock (c : MemCfg) (s : MemState) (key : String) (expiration : Nat) :
    Except Err Nat × MemState :=
  let lockKey := c.lockPre ++ key
  match alookup s.locks lockKey with
  | some _ => (.error .lockAcquired, s)
  | none =>
    (.ok s.tokenCtr,
     { s with locks := aset s.locks lockKey s.tokenCtr,
              tokenCtr := s.tokenCtr + 1 })

/-- The deferred expiry task memoryCache.Lock schedules: when it fires it
deletes the lock record only if the same token still holds it. -/
def memLockExpire (c : MemCfg) (s : MemState) (key : String) (tok : Nat) :
    MemState :=
  let lockKey := c.lockPre ++ key
  match alookup s.locks lockKey with
  | some t => if t = tok then { s with locks := adel s.locks lockKey } else s
  | none => s

/-- memoryCache.Unlock: succeed and delete only when the stored token equals
the caller-supplied one; an absent record or a mismatch is LockNotOwned. -/
def memUnlock (c : MemCfg) (s : MemState) (key : String) (value : Nat) :
    Except Err Unit × MemState :=
  let lockKey := c.lockPre ++ key
  match alookup s.locks lockKey with
  | none => (.error .lockNotOwned, s)
  | some v =>
    if v = value then (.ok (), { s with locks := adel s.locks lockKey })
    else (.error .lockNotOwned, s)

/-! ## Networked backend (redisCache, redis.go) -/

/-- The configuration fields of redisCache: key namespace and lock
namespace. -/
structure RCfg where
  keyPre : String
  lockPre : String
deriving DecidableEq, Repr

/-- One redis entry: a byte-string value and an optional absolute expiry
instant in nanoseconds. -/
structure REntry where
  val : Bytes
  expireAt : Option Nat
deriving DecidableEq, Repr

/-- The state of the networked backend as seen through the client: the
shared keyspace, the uuid counter, the current time in nanoseconds, and the
injected client-failure flag for writes. -/
structure RState where
  kv : List (String × REntry)
  tokenCtr : Nat
  now : Nat
  setFails : Bool
deriving DecidableEq, Repr

/-- A live entry of the shared store: redis treats an expired key exactly
like an absent one. -/
def rliveGet (s : RState) (k : String) : Option REntry :=
  match alookup s.kv k with
  | none => none
  | some e =>
    match e.expireAt with
    | none => some e
    | some t => if t ≤ s.now then none else some e

/-- The byte-string form of the n-th generated uuid token. -/
def tokenBytes (n : Nat) : Bytes := [n]

/-- redisCache.Set for a raw []byte value: SET with the given expiration; a
zero expiration stores without TTL; a client failure is surfaced as is. -/
def redisSet (c : RCfg) (s : RState) (key : String) (data : Bytes)
    (expiration : Nat) : Except Err Unit × RState :=
  if s.setFails then (.error .netFail, s)
  else
    let fullKey := c.keyPre ++ key
    (.ok (),
     { s with
       kv := aset s.kv fullKey
         ⟨data, if 0 < expiration then some (s.now + expiration) else none⟩ })

/-- redisCache.GetRaw: redis.Nil becomes the NotFound sentinel. -/
def redisGetRaw (c : RCfg) (s : RState) (key : String) : Except Err Bytes :=
  match rliveGet s (c.keyPre ++ key) with
  | none => .error .notFound
  | some e => .ok e.val

/-- redisCache.Exists: a count of live keys turned into a boolean. -/
def redisExists (c : RCfg) (s : RState) (key : String) : Except Err Bool :=
  match rliveGet s (c.keyPre ++ key) with
  | none => .ok false
  | some _ => .ok true

/-- redisCache.Lock: generate a fresh token, then SET NX with TTL; an
already-present live key loses the race and yields the LockAlreadyAcquired
sentinel. -/
def redisLock (c : RCfg) (s : RState) (key : String) (expiration : Nat) :
    Except Err Bytes × RState :=
  let fullKey := c.lockPre ++ key
  let tok := tokenBytes s.tokenCtr
  let s1 := { s with tokenCtr := s.tokenCtr + 1 }
  match rliveGet s1 fullKey with
  | some _ => (.error .lockAcquired, s1)
  | none =>
    (.ok tok,
     { s1 with
       kv := aset s1.kv fullKey
         ⟨tok, if 0 < expiration then some (s1.now + expiration) else none⟩ })

/-- redisCache.Unlock: the compare-and-delete script, deleting only when the
stored value equals the caller-supplied token; a zero reply (absent key or
value mismatch) is LockNotOwned. -/
def redisUnlock (c : RCfg) (s : RState) (key : String) (value : Bytes) :
    Except Err Unit × RState :=
  let fullKey := c.lockPre ++ key
  match rliveGet s fullKey with
  | none => (.error .lockNotOwned, s)
  | some e =>
    if e.val = value then (.ok (), { s with kv := adel s.kv fullKey })
    else (.error .lockNotOwned, s)

/-- The body of redisCache.SaveRaw once the anti-stampede lock has been
acquired: re-check the cache, then compute and persist; the deferred Unlock
runs on every exit path and its own error is discarded. -/
def redisSaveRawLocked (c : RCfg) (s : RState) (key lockKey : String)
    (tok : Bytes) (fn : Except Err Bytes) (expiration : Nat)
    (opts : SaveOpts) : Except Err Bytes × RState × List Event :=
  match redisGetRaw c s key with
  | .ok data =>
    (.ok data, (redisUnlock c s lockKey tok).2, [.getRaw, .unlockCall])
  | .error e =>
    if e = .notFound then
      match fn with
      | .error ferr =>
        (.error ferr, (redisUnlock c s lockKey tok).2,
         [.getRaw, .computeCall, .unlockCall])
      | .ok result =>
        let exp :=
          if result.isEmpty && opts.preventCacheMiss then
            if 0 < opts.nilExpiration then opts.nilExpiration else expiration
          else expiration
        match redisSet c s key result exp with
        | (.ok _, s1) =>
          (.ok result, (redisUnlock c s1 lockKey tok).2,
           [.getRaw, .computeCall, .setCall, .unlockCall])
        | (.error serr, s1) =>
          (.error serr, (redisUnlock c s1 lockKey tok).2,
           [.getRaw, .computeCall, .setCall, .unlockCall])
    else (.error e, (redisUnlock c s lockKey tok).2, [.getRaw, .unlockCall])

/-- redisCache.SaveRaw: unless ForceRefresh is set, a cache hit returns at
once; otherwise attempt the anti-stampede lock (key lock: plus the data key,
five-second TTL). Winning the lock runs the locked body; losing it to a
concurrent holder re-checks the cache and, when still missing, sleeps and
retries the whole call, consuming one unit of fuel per retry. -/
def redisSaveRaw (c : RCfg) :
    Nat → RState → String → Except Err Bytes → Nat → SaveOpts →
    Except Err Bytes × RState × List Event
  | 0, s, _, _, _, _ => (.error .retryBudget, s, [])
  | fuel + 1, s, key, fn, expiration, opts =>
    let afterMiss := fun (s0 : RState) (ev0 : List Event) =>
      let lockKey := "lock:" ++ key
      match redisLock c s0 lockKey 5000000000 with
      | (.ok tok, s1) =>
        let out := redisSaveRawLocked c s1 key lockKey tok fn expiration opts
        (out.1, out.2.1, ev0 ++ .lockCall :: out.2.2)
      | (.error lerr, s1) =>
        if lerr = .lockAcquired then
          match redisGetRaw c s1 key with
          | .ok data => (.ok data, s1, ev0 ++ [.lockCall, .getRaw])
          | .error e =>
            if e = .notFound then
              let out := redisSaveRaw c fuel s1 key fn expiration opts
              (out.1, out.2.1, ev0 ++ [.lockCall, .getRaw, .sleepRetry] ++ out.2.2)
            else (.error e, s1, ev0 ++ [.lockCall, .getRaw])
        else (.error lerr, s1, ev0 ++ [.lockCall])
    if opts.forceRefresh then afterMiss s []
    else
      match redisGetRaw c s key with
      | .ok data => (.ok data, s, [.getRaw])
      | .error e =>
        if e = .notFound then afterMiss s [.getRaw]
        else (.error e, s, [.getRaw])

/-! ## Construction (New, newMemoryCache, newRedisCache, options.go) -/

/-- The backend selector of options.go. -/
inductive CacheKind where
  | memoryCache
  | redisCache
deriving DecidableEq, Repr

/-- The construction options of options.go; hasRedisClient records whether a
non-nil client handle was supplied. -/
structure COptions where
  typ : CacheKind := .memoryCache
  hasRedisClient : Bool := false
  keyPre : String := ""
  lockPre : String := ""
  cacheSize : Nat := 0
  setGCPercent : Bool := false

/-- WithRedis in options.go; the argument records whether the supplied
client handle is non-nil. -/
def withRedis (clientPresent : Bool) : COptions → COptions :=
  fun o => { o with typ := .redisCache, hasRedisClient := clientPresent }

/-- WithMemory in options.go. -/
def withMemory : COptions → COptions :=
  fun o => { o with typ := .memoryCache }

/-- WithKeyPrefix in options.go. -/
def withKeyPre (p : String) : COptions → COptions :=
  fun o => { o with keyPre := p }

/-- WithLockPrefix in options.go. -/
def withLockPre (p : String) : COptions → COptions :=
  fun o => { o with lockPre := p }

/-- A constructed cache instance: one of the two backends. -/
inductive CacheImpl where
  | mem (c : MemCfg)
  | red (c : RCfg)
deriving DecidableEq, Repr

/-- newMemoryCache: never fails; carries the two namespaces into the
instance. -/
def newMemoryCache (o : COptions) : Except Err MemCfg :=
  .ok ⟨o.keyPre, o.lockPre⟩

/-- newRedisCache: a missing client handle fails with the ad hoc error value
errors.New produces there; note this is not the ErrInvalidParams sentinel. -/
def newRedisCache (o : COptions) : Except Err RCfg :=
  if o.hasRedisClient then .ok ⟨o.keyPre, o.lockPre⟩
  else .error (.newErr "cache: redis client is required")

/-- New in cache.go: fold the option functions over the defaults, then
dispatch on the selected backend kind. -/
def cacheNew (os : List (COptions → COptions)) : Except Err CacheImpl :=
  let o := os.foldl (fun a f => f a) {}
  match o.typ with
  | .memoryCache => (newMemoryCache o).map .mem
  | .redisCache => (newRedisCache o).map .red

/-- Well-formedness of the in-process lock state: every held token was
produced by an earlier uuid generation, hence is below the counter. -/
def memWF (s : MemState) : Prop :=
  ∀ k t, alookup s.locks k = some t → t < s.tokenCtr

/-- Well-formedness of the networked state: every stored value that is the
byte form of a generated token was produced by an earlier generation. -/
def redisWF (s : RState) : Prop :=
  ∀ k e n, alookup s.kv k = some e → e.val = tokenBytes n → n < s.tokenCtr

/-! ## The anti-stampede interleaving model of redisCache.SaveRaw

N callers concurrently run redisCache.SaveRaw for the same missing key with
the same compute function, which succeeds with payload v. The shared redis
store is reduced to the two cells the callers touch: the data entry of the
key and the lock entry derived from it. Each caller is a program counter
walking the statements of redisCache.SaveRaw; every shared-store access is
one atomic step, matching the atomicity redis gives each command. The lock
is modelled as held until released: the five-second TTL of the lock and any
TTL on the data entry are progress devices of the real system and do not
lapse inside the window the property speaks about. The sleep before a
retry has no shared effect and is dropped. -/

namespace Stampede

open GkitCache

/-- The program counter of one caller inside redisCache.SaveRaw: the first
cache read, the SET NX attempt, the re-check after the lock attempt (as
winner or loser), the compute call, the persisting SET, the deferred unlock
(after computing or after a late hit), and the two terminal outcomes. -/
inductive Phase where
  | start
  | tryLock
  | recheckL
  | recheckU
  | compute
  | persist
  | unlockC
  | unlockH (b : Bytes)
  | doneHit (b : Bytes)
  | doneComputed
deriving DecidableEq, Repr

/-- The shared store and the callers: the data cell of the contended key,
the lock cell (holding the index of the winning caller, whose generated
token it stands for), and the phase of each caller. -/
@[ext] structure Sys (n : Nat) where
  data : Option Bytes
  lock : Option (Fin n)
  pc : Fin n → Phase

/-- Pointwise update of the phase of one caller. -/
def upd {n : Nat} (pc : Fin n → Phase) (i : Fin n) (p : Phase) :
    Fin n → Phase :=
  fun j => if j = i then p else pc j

/-- The compare-and-delete unlock script: the lock cell is cleared only when
it still holds the token of the calling party. -/
def unlockUpd {n : Nat} (i : Fin n) (l : Option (Fin n)) : Option (Fin n) :=
  if l = some i then none else l

/-- One atomic step of one caller, following redisCache.SaveRaw line by
line: the initial GetRaw, the Lock via SET NX, the re-check GetRaw, fn, the
persisting Set, and the deferred Unlock. -/
inductive Step {n : Nat} (v : Bytes) : Sys n → Sys n → Prop where
  | startHit (s : Sys n) (i : Fin n) (b : Bytes) :
      s.pc i = .start → s.data = some b →
      Step v s { s with pc := upd s.pc i (.doneHit b) }
  | startMiss (s : Sys n) (i : Fin n) :
      s.pc i = .start → s.data = none →
      Step v s { s with pc := upd s.pc i .tryLock }
  | lockWin (s : Sys n) (i : Fin n) :
      s.pc i = .tryLock → s.lock = none →
      Step v s { s with lock := some i, pc := upd s.pc i .recheckL }
  | lockLose (s : Sys n) (i j : Fin n) :
      s.pc i = .tryLock → s.lock = some j →
      Step v s { s with pc := upd s.pc i .recheckU }
  | recheckLHit (s : Sys n) (i : Fin n) (b : Bytes) :
      s.pc i = .recheckL → s.data = some b →
      Step v s { s with pc := upd s.pc i (.unlockH b) }
  | recheckLMiss (s : Sys n) (i : Fin n) :
      s.pc i = .recheckL → s.data = none →
      Step v s { s with pc := upd s.pc i .compute }
  | recheckUHit (s : Sys n) (i : Fin n) (b : Bytes) :
      s.pc i = .recheckU → s.data = some b →
      Step v s { s with pc := upd s.pc i (.doneHit b) }
  | recheckUMiss (s : Sys n) (i : Fin n) :
      s.pc i = .recheckU → s.data = none →
      Step v s { s with pc := upd s.pc i .start }
  | computeFn (s : Sys n) (i : Fin n) :
      s.pc i = .compute →
      Step v s { s with pc := upd s.pc i .persist }
  | persistSet (s : Sys n) (i : Fin n) :
      s.pc i = .persist →
      Step v s { s with data := some v, pc := upd s.pc i .unlockC }
  | unlockAfterCompute (s : Sys n) (i : Fin n) :
      s.pc i = .unlockC →
      Step v s { s with lock := unlockUpd i s.lock,
                        pc := upd s.pc i .doneComputed }
  | unlockAfterHit (s : Sys n) (i : Fin n) (b : Bytes) :
      s.pc i = .unlockH b →
      Step v s { s with lock := unlockUpd i s.lock,
                        pc := upd s.pc i (.doneHit b) }

/-- All callers at the first statement, the key missing, the lock free. -/
def init (n : Nat) : Sys n := ⟨none, none, fun _ => .start⟩

/-- The reachable states of the interleaved execution. -/
abbrev Reach {n : Nat} (v : Bytes) (s t : Sys n) : Prop :=
  Relation.ReflTransGen (Step v) s t

/-- The phases in which a caller holds the anti-stampede lock. -/
def holdingF : Phase → Bool
  | .recheckL => true
  | .compute => true
  | .persist => true
  | .unlockC => true
  | .unlockH _ => true
  | _ => false

/-- The phases a caller is in once it has executed the compute function. -/
def computedF : Phase → Bool
  | .persist => true
  | .unlockC => true
  | .doneComputed => true
  | _ => false

/-- The inductive invariant of the interleaving: the lock cell names the
unique holder; a caller about to compute or persist sees the key missing;
a caller past its persisting Set sees the key filled with v; a filled key
holds v and was filled by a caller that computed; every observed hit is v
and the key is (still) filled; and at most one caller ever computes. -/
structure Inv {n : Nat} (v : Bytes) (s : Sys n) : Prop where
  holdLock : ∀ i, holdingF (s.pc i) = true → s.lock = some i
  compNone : ∀ i, s.pc i = .compute ∨ s.pc i = .persist → s.data = none
  doneSome : ∀ i, s.pc i = .unlockC ∨ s.pc i = .doneComputed → s.data = some v
  dataInv : ∀ b, s.data = some b → b = v ∧ ∃ j, computedF (s.pc j) = true
  hitInv : ∀ i b, s.pc i = .doneHit b ∨ s.pc i = .unlockH b →
    b = v ∧ s.data = some v
  uniq : ∀ i j, computedF (s.pc i) = true → computedF (s.pc j) = true → i = j

/-- A two-caller phase assignment for the concrete stampede run. -/
def c1pc (a b : Phase) : Fin 2 → Phase :=
  fun j => if j = 0 then a else b

/-- A two-caller system state for the concrete stampede run. -/
def c1st (d : Option Bytes) (l : Option (Fin 2)) (a b : Phase) : Sys 2 :=
  ⟨d, l, c1pc a b⟩

/-- The end state of the concrete run: caller 0 computed and persisted the
payload, caller 1 then observed the hit. -/
def c1final : Sys 2 := c1st (some [7]) none .doneComputed (.doneHit [7])

/-! Invariant lemmas for the interleaving model. -/

theorem upd_self {n : Nat} (pc : Fin n → Phase) (i : Fin n) (p : Phase) :
    upd pc i p i = p := by
  simp [upd]

theorem upd_ne {n : Nat} (pc : Fin n → Phase) (i j : Fin n) (p : Phase)
    (h : j ≠ i) : upd pc i p j = pc j := by
  simp [upd, h]

theorem computed_cases {p : Phase} (h : computedF p = true) :
    p = .persist ∨ p = .unlockC ∨ p = .doneComputed := by
  cases p <;> simp_all [computedF]

@[simp] theorem data_mk {n : Nat} (d : Option Bytes) (l : Option (Fin n))
    (p : Fin n → Phase) : (Sys.mk d l p).data = d := rfl

@[simp] theorem lock_mk {n : Nat} (d : Option Bytes) (l : Option (Fin n))
    (p : Fin n → Phase) : (Sys.mk d l p).lock = l := rfl

@[simp] theorem pc_mk {n : Nat} (d : Option Bytes) (l : Option (Fin n))
    (p : Fin n → Phase) : (Sys.mk d l p).pc = p := rfl

theorem inv_init (v : Bytes) (n : Nat) : Inv v (init n) := by
  refine ⟨?_, ?_, ?_, ?_, ?_, ?_⟩ <;> intros <;>
    simp_all [init, holdingF, computedF]

/-- No caller can be past its compute call while another is still at the
compute statement: the one at compute holds the lock and sees the key
missing, while a computed one either also holds the lock or has already
filled the key. -/
theorem compute_excl {n : Nat} {v : Bytes} {s : Sys n} (inv : Inv v s)
    {i j : Fin n} (hpc : s.pc i = .compute)
    (hj : computedF (s.pc j) = true) : False := by
  have hdata := inv.compNone i (Or.inl hpc)
  have hlock := inv.holdLock i (by rw [hpc]; rfl)
  rcases computed_cases hj with h | h | h
  · have h2 := inv.holdLock j (by rw [h]; rfl)
    rw [hlock] at h2
    injection h2 with h3
    rw [← h3, hpc] at h
    simp at h
  · have h2 := inv.holdLock j (by rw [h]; rfl)
    rw [hlock] at h2
    injection h2 with h3
    rw [← h3, hpc] at h
    simp at h
  · have h2 := inv.doneSome j (Or.inr h)
    rw [hdata] at h2
    exact Option.noConfusion h2

/-- Frame lemma: a step that only moves the program counter of one caller, with
the shared cells untouched, preserves the invariant provided the new phase
honours it. -/
theorem inv_pc_update {n : Nat} {v : Bytes} {s : Sys n} (inv : Inv v s)
    (i : Fin n) (p : Phase)
    (hhold : holdingF p = true → s.lock = some i)
    (hcomp : p = .compute ∨ p = .persist → s.data = none)
    (hdone : p = .unlockC ∨ p = .doneComputed → s.data = some v)
    (hhit : ∀ b, p = .doneHit b ∨ p = .unlockH b → b = v ∧ s.data = some v)
    (hnew : computedF p = true → computedF (s.pc i) = true)
    (hold : computedF (s.pc i) = true → computedF p = true) :
    Inv v { s with pc := upd s.pc i p } := by
  refine ⟨?_, ?_, ?_, ?_, ?_, ?_⟩
  · intro i2 h
    simp only [pc_mk, lock_mk] at h ⊢
    by_cases hii : i2 = i
    · rw [hii, upd_self] at h
      rw [hii]
      exact hhold h
    · rw [upd_ne _ _ _ _ hii] at h
      exact inv.holdLock i2 h
  · intro i2 h
    simp only [pc_mk, data_mk] at h ⊢
    by_cases hii : i2 = i
    · rw [hii, upd_self] at h
      exact hcomp h
    · rw [upd_ne _ _ _ _ hii] at h
      exact inv.compNone i2 h
  · intro i2 h
    simp only [pc_mk, data_mk] at h ⊢
    by_cases hii : i2 = i
    · rw [hii, upd_self] at h
      exact hdone h
    · rw [upd_ne _ _ _ _ hii] at h
      exact inv.doneSome i2 h
  · intro b2 hd
    simp only [data_mk] at hd
    simp only [pc_mk]
    obtain ⟨hb2, j, hj⟩ := inv.dataInv b2 hd
    refine ⟨hb2, j, ?_⟩
    by_cases hji : j = i
    · rw [hji, upd_self]
      rw [hji] at hj
      exact hold hj
    · rw [upd_ne _ _ _ _ hji]
      exact hj
  · intro i2 b2 h
    simp only [pc_mk, data_mk] at h ⊢
    by_cases hii : i2 = i
    · rw [hii, upd_self] at h
      exact hhit b2 h
    · rw [upd_ne _ _ _ _ hii] at h
      exact inv.hitInv i2 b2 h
  · intro i2 j2 h2 h3
    simp only [pc_mk] at h2 h3
    have g2 : computedF (s.pc i2) = true := by
      by_cases hii : i2 = i
      · rw [hii]
        rw [hii, upd_self] at h2
        exact hnew h2
      · rw [upd_ne _ _ _ _ hii] at h2
        exact h2
    have g3 : computedF (s.pc j2) = true := by
      by_cases hji : j2 = i
      · rw [hji]
        rw [hji, upd_self] at h3
        exact hnew h3
      · rw [upd_ne _ _ _ _ hji] at h3
        exact h3
    exact inv.uniq i2 j2 g2 g3

/-- Frame lemma: a release step, taken by the current lock holder, moving it
to a non-holding phase while running the compare-and-delete unlock,
preserves the invariant. -/
theorem inv_release {n : Nat} {v : Bytes} {s : Sys n} (inv : Inv v s)
    (i : Fin n) (p : Phase)
    (hheld : holdingF (s.pc i) = true)
    (hnp : holdingF p = false)
    (hcomp : ¬(p = .compute ∨ p = .persist))
    (hdone : p = .unlockC ∨ p = .doneComputed → s.data = some v)
    (hhit : ∀ b, p = .doneHit b ∨ p = .unlockH b → b = v ∧ s.data = some v)
    (hciff : computedF p = computedF (s.pc i)) :
    Inv v { s with lock := unlockUpd i s.lock, pc := upd s.pc i p } := by
  have hlock := inv.holdLock i hheld
  refine ⟨?_, ?_, ?_, ?_, ?_, ?_⟩
  · intro i2 h
    simp only [pc_mk, lock_mk] at h ⊢
    by_cases hii : i2 = i
    · rw [hii, upd_self] at h
      rw [hnp] at h
      exact Bool.noConfusion h
    · rw [upd_ne _ _ _ _ hii] at h
      have hc := inv.holdLock i2 h
      rw [hlock] at hc
      injection hc with hc2
      exact absurd hc2.symm hii
  · intro i2 h
    simp only [pc_mk, data_mk] at h ⊢
    by_cases hii : i2 = i
    · rw [hii, upd_self] at h
      exact absurd h hcomp
    · rw [upd_ne _ _ _ _ hii] at h
      exact inv.compNone i2 h
  · intro i2 h
    simp only [pc_mk, data_mk] at h ⊢
    by_cases hii : i2 = i
    · rw [hii, upd_self] at h
      exact hdone h
    · rw [upd_ne _ _ _ _ hii] at h
      exact inv.doneSome i2 h
  · intro b2 hd
    simp only [data_mk] at hd
    simp only [pc_mk]
    obtain ⟨hb2, j, hj⟩ := inv.dataInv b2 hd
    refine ⟨hb2, j, ?_⟩
    by_cases hji : j = i
    · rw [hji, upd_self]
      rw [hji] at hj
      rw [hciff]
      exact hj
    · rw [upd_ne _ _ _ _ hji]
      exact hj
  · intro i2 b2 h
    simp only [pc_mk, data_mk] at h ⊢
    by_cases hii : i2 = i
    · rw [hii, upd_self] at h
      exact hhit b2 h
    · rw [upd_ne _ _ _ _ hii] at h
      exact inv.hitInv i2 b2 h
  · intro i2 j2 h2 h3
    simp only [pc_mk] at h2 h3
    have g2 : computedF (s.pc i2) = true := by
      by_cases hii : i2 = i
      · rw [hii]
        rw [hii, upd_self, hciff] at h2
        exact h2
      · rw [upd_ne _ _ _ _ hii] at h2
        exact h2
    have g3 : computedF (s.pc j2) = true := by
      by_cases hji : j2 = i
      · rw [hji]
        rw [hji, upd_self, hciff] at h3
        exact h3
      · rw [upd_ne _ _ _ _ hji] at h3
        exact h3
    exact inv.uniq i2 j2 g2 g3

theorem inv_step {n : Nat} {v : Bytes} {s t : Sys n} (inv : Inv v s)
    (hst : Step v s t) : Inv v t := by
  cases hst with
  | startHit i b hpc hdata =>
    obtain ⟨hbv, -⟩ := inv.dataInv b hdata
    refine inv_pc_update inv i _ ?_ ?_ ?_ ?_ ?_ ?_
    · intro h; simp [holdingF] at h
    · intro h; rcases h with h | h <;> simp at h
    · intro h; rcases h with h | h <;> simp at h
    · intro b2 h
      rcases h with h | h
      · injection h with hb
        subst hb
        refine ⟨hbv, ?_⟩
        rw [← hbv]
        exact hdata
      · simp at h
    · intro h; simp [computedF] at h
    · intro h; rw [hpc] at h; simp [computedF] at h
  | startMiss i hpc hdata =>
    refine inv_pc_update inv i _ ?_ ?_ ?_ ?_ ?_ ?_
    · intro h; simp [holdingF] at h
    · intro h; rcases h with h | h <;> simp at h
    · intro h; rcases h with h | h <;> simp at h
    · intro b2 h; rcases h with h | h <;> simp at h
    · intro h; simp [computedF] at h
    · intro h; rw [hpc] at h; simp [computedF] at h
  | lockWin i hpc hlock =>
    refine ⟨?_, ?_, ?_, ?_, ?_, ?_⟩
    · intro i2 h
      simp only [pc_mk, lock_mk] at h ⊢
      by_cases hii : i2 = i
      · rw [hii]
      · rw [upd_ne _ _ _ _ hii] at h
        have hc := inv.holdLock i2 h
        rw [hlock] at hc
        exact Option.noConfusion hc
    · intro i2 h
      simp only [pc_mk, data_mk] at h ⊢
      by_cases hii : i2 = i
      · rw [hii, upd_self] at h
        rcases h with h | h <;> simp at h
      · rw [upd_ne _ _ _ _ hii] at h
        exact inv.compNone i2 h
    · intro i2 h
      simp only [pc_mk, data_mk] at h ⊢
      by_cases hii : i2 = i
      · rw [hii, upd_self] at h
        rcases h with h | h <;> simp at h
      · rw [upd_ne _ _ _ _ hii] at h
        exact inv.doneSome i2 h
    · intro b2 hd
      simp only [data_mk] at hd
      simp only [pc_mk]
      obtain ⟨hb2, j2, hj⟩ := inv.dataInv b2 hd
      refine ⟨hb2, j2, ?_⟩
      by_cases hji : j2 = i
      · rw [hji, hpc] at hj
        simp [computedF] at hj
      · rw [upd_ne _ _ _ _ hji]
        exact hj
    · intro i2 b2 h
      simp only [pc_mk, data_mk] at h ⊢
      by_cases hii : i2 = i
      · rw [hii, upd_self] at h
        rcases h with h | h <;> simp at h
      · rw [upd_ne _ _ _ _ hii] at h
        exact inv.hitInv i2 b2 h
    · intro i2 j2 h2 h3
      simp only [pc_mk] at h2 h3
      have g2 : computedF (s.pc i2) = true := by
        by_cases hii : i2 = i
        · rw [hii, upd_self] at h2
          simp [computedF] at h2
        · rw [upd_ne _ _ _ _ hii] at h2
          exact h2
      have g3 : computedF (s.pc j2) = true := by
        by_cases hji : j2 = i
        · rw [hji, upd_self] at h3
          simp [computedF] at h3
        · rw [upd_ne _ _ _ _ hji] at h3
          exact h3
      exact inv.uniq i2 j2 g2 g3
  | lockLose i j hpc hlock =>
    refine inv_pc_update inv i _ ?_ ?_ ?_ ?_ ?_ ?_
    · intro h; simp [holdingF] at h
    · intro h; rcases h with h | h <;> simp at h
    · intro h; rcases h with h | h <;> simp at h
    · intro b2 h; rcases h with h | h <;> simp at h
    · intro h; simp [computedF] at h
    · intro h; rw [hpc] at h; simp [computedF] at h
  | recheckLHit i b hpc hdata =>
    obtain ⟨hbv, -⟩ := inv.dataInv b hdata
    refine inv_pc_update inv i _ ?_ ?_ ?_ ?_ ?_ ?_
    · intro _; exact inv.holdLock i (by rw [hpc]; rfl)
    · intro h; rcases h with h | h <;> simp at h
    · intro h; rcases h with h | h <;> simp at h
    · intro b2 h
      rcases h with h | h
      · simp at h
      · injection h with hb
        subst hb
        refine ⟨hbv, ?_⟩
        rw [← hbv]
        exact hdata
    · intro h; simp [computedF] at h
    · intro h; rw [hpc] at h; simp [computedF] at h
  | recheckLMiss i hpc hdata =>
    refine inv_pc_update inv i _ ?_ ?_ ?_ ?_ ?_ ?_
    · intro _; exact inv.holdLock i (by rw [hpc]; rfl)
    · intro _; exact hdata
    · intro h; rcases h with h | h <;> simp at h
    · intro b2 h; rcases h with h | h <;> simp at h
    · intro h; simp [computedF] at h
    · intro h; rw [hpc] at h; simp [computedF] at h
  | recheckUHit i b hpc hdata =>
    obtain ⟨hbv, -⟩ := inv.dataInv b hdata
    refine inv_pc_update inv i _ ?_ ?_ ?_ ?_ ?_ ?_
    · intro h; simp [holdingF] at h
    · intro h; rcases h with h | h <;> simp at h
    · intro h; rcases h with h | h <;> simp at h
    · intro b2 h
      rcases h with h | h
      · injection h with hb
        subst hb
        refine ⟨hbv, ?_⟩
        rw [← hbv]
        exact hdata
      · simp at h
    · intro h; simp [computedF] at h
    · intro h; rw [hpc] at h; simp [computedF] at h
  | recheckUMiss i hpc hdata =>
    refine inv_pc_update inv i _ ?_ ?_ ?_ ?_ ?_ ?_
    · intro h; simp [holdingF] at h
    · intro h; rcases h with h | h <;> simp at h
    · intro h; rcases h with h | h <;> simp at h
    · intro b2 h; rcases h with h | h <;> simp at h
    · intro h; simp [computedF] at h
    · intro h; rw [hpc] at h; simp [computedF] at h
  | computeFn i hpc =>
    have hdata := inv.compNone i (Or.inl hpc)
    have hlock := inv.holdLock i (by rw [hpc]; rfl)
    refine ⟨?_, ?_, ?_, ?_, ?_, ?_⟩
    · intro i2 h
      simp only [pc_mk, lock_mk] at h ⊢
      by_cases hii : i2 = i
      · rw [hii]
        exact hlock
      · rw [upd_ne _ _ _ _ hii] at h
        exact inv.holdLock i2 h
    · intro i2 h
      simp only [pc_mk, data_mk] at h ⊢
      exact hdata
    · intro i2 h
      simp only [pc_mk, data_mk] at h ⊢
      by_cases hii : i2 = i
      · rw [hii, upd_self] at h
        rcases h with h | h <;> simp at h
      · rw [upd_ne _ _ _ _ hii] at h
        exact inv.doneSome i2 h
    · intro b2 hd
      simp only [data_mk] at hd
      rw [hdata] at hd
      exact Option.noConfusion hd
    · intro i2 b2 h
      simp only [pc_mk, data_mk] at h ⊢
      by_cases hii : i2 = i
      · rw [hii, upd_self] at h
        rcases h with h | h <;> simp at h
      · rw [upd_ne _ _ _ _ hii] at h
        exact inv.hitInv i2 b2 h
    · intro i2 j2 h2 h3
      simp only [pc_mk] at h2 h3
      by_cases hii : i2 = i
      · by_cases hji : j2 = i
        · rw [hii, hji]
        · rw [upd_ne _ _ _ _ hji] at h3
          exact (compute_excl inv hpc h3).elim
      · rw [upd_ne _ _ _ _ hii] at h2
        by_cases hji : j2 = i
        · exact (compute_excl inv hpc h2).elim
        · rw [upd_ne _ _ _ _ hji] at h3
          exact inv.uniq i2 j2 h2 h3
  | persistSet i hpc =>
    have hlock := inv.holdLock i (by rw [hpc]; rfl)
    have hcompi : computedF (s.pc i) = true := by rw [hpc]; rfl
    refine ⟨?_, ?_, ?_, ?_, ?_, ?_⟩
    · intro i2 h
      simp only [pc_mk, lock_mk] at h ⊢
      by_cases hii : i2 = i
      · rw [hii]
        exact hlock
      · rw [upd_ne _ _ _ _ hii] at h
        exact inv.holdLock i2 h
    · intro i2 h
      simp only [pc_mk, data_mk] at h ⊢
      by_cases hii : i2 = i
      · rw [hii, upd_self] at h
        rcases h with h | h <;> simp at h
      · rw [upd_ne _ _ _ _ hii] at h
        have hh : holdingF (s.pc i2) = true := by
          rcases h with h | h <;> rw [h] <;> rfl
        have hc := inv.holdLock i2 hh
        rw [hlock] at hc
        injection hc with hc2
        exact absurd hc2.symm hii
    · intro i2 _
      rfl
    · intro b2 hd
      simp only [data_mk] at hd
      simp only [pc_mk]
      injection hd with hv
      refine ⟨hv.symm, i, ?_⟩
      rw [upd_self]
      rfl
    · intro i2 b2 h
      simp only [pc_mk, data_mk] at h ⊢
      by_cases hii : i2 = i
      · rw [hii, upd_self] at h
        rcases h with h | h <;> simp at h
      · rw [upd_ne _ _ _ _ hii] at h
        obtain ⟨hb2, -⟩ := inv.hitInv i2 b2 h
        exact ⟨hb2, by trivial⟩
    · intro i2 j2 h2 h3
      simp only [pc_mk] at h2 h3
      have g2 : computedF (s.pc i2) = true := by
        by_cases hii : i2 = i
        · rw [hii]
          exact hcompi
        · rw [upd_ne _ _ _ _ hii] at h2
          exact h2
      have g3 : computedF (s.pc j2) = true := by
        by_cases hji : j2 = i
        · rw [hji]
          exact hcompi
        · rw [upd_ne _ _ _ _ hji] at h3
          exact h3
      exact inv.uniq i2 j2 g2 g3
  | unlockAfterCompute i hpc =>
    refine inv_release inv i _ (by rw [hpc]; rfl) rfl ?_ ?_ ?_ ?_
    · intro h
      rcases h with h | h <;> simp at h
    · intro _
      exact inv.doneSome i (Or.inl hpc)
    · intro b2 h
      rcases h with h | h <;> simp at h
    · rw [hpc]; rfl
  | unlockAfterHit i b hpc =>
    obtain ⟨hbv, hdv⟩ := inv.hitInv i b (Or.inr hpc)
    refine inv_release inv i _ (by rw [hpc]; rfl) rfl ?_ ?_ ?_ ?_
    · intro h
      rcases h with h | h <;> simp at h
    · intro h
      rcases h with h | h <;> simp at h
    · intro b2 h
      rcases h with h | h
      · injection h with hb
        subst hb
        exact ⟨hbv, hdv⟩
      · simp at h
    · rw [hpc]; rfl

theorem inv_reach {n : Nat} {v : Bytes} {s : Sys n}
    (h : Reach v (init n) s) : Inv v s := by
  induction h with
  | refl => exact inv_init v n
  | tail _ hbc ih => exact inv_step ih hbc

/-- Repackage a step when its target state is rewritten. -/
theorem step_conv {n : Nat} {v : Bytes} {s t t2 : Sys n} (h : Step v s t)
    (he : t = t2) : Step v s t2 := he ▸ h

/-- The concrete two-caller run: caller 0 misses, wins the lock, re-checks,
computes, persists and unlocks; caller 1 then starts and hits. -/
theorem c1_reach : Reach [7] (init 2) c1final := by
  have e0 : init 2 = c1st none none .start .start := by
    ext j <;> try rfl
    fin_cases j <;> rfl
  have h1 : Step [7] (c1st none none .start .start)
      (c1st none none .tryLock .start) :=
    step_conv (.startMiss _ 0 rfl rfl)
      (by ext j <;> try rfl
          fin_cases j <;> rfl)
  have h2 : Step [7] (c1st none none .tryLock .start)
      (c1st none (some 0) .recheckL .start) :=
    step_conv (.lockWin _ 0 rfl rfl)
      (by ext j <;> try rfl
          fin_cases j <;> rfl)
  have h3 : Step [7] (c1st none (some 0) .recheckL .start)
      (c1st none (some 0) .compute .start) :=
    step_conv (.recheckLMiss _ 0 rfl rfl)
      (by ext j <;> try rfl
          fin_cases j <;> rfl)
  have h4 : Step [7] (c1st none (some 0) .compute .start)
      (c1st none (some 0) .persist .start) :=
    step_conv (.computeFn _ 0 rfl)
      (by ext j <;> try rfl
          fin_cases j <;> rfl)
  have h5 : Step [7] (c1st none (some 0) .persist .start)
      (c1st (some [7]) (some 0) .unlockC .start) :=
    step_conv (.persistSet _ 0 rfl)
      (by ext j <;> try rfl
          fin_cases j <;> rfl)
  have h6 : Step [7] (c1st (some [7]) (some 0) .unlockC .start)
      (c1st (some [7]) none .doneComputed .start) :=
    step_conv (.unlockAfterCompute _ 0 rfl)
      (by ext j <;> try rfl
          fin_cases j <;> rfl)
  have h7 : Step [7] (c1st (some [7]) none .doneComputed .start)
      c1final :=
    step_conv (.startHit _ 1 _ rfl rfl)
      (by ext j <;> try rfl
          fin_cases j <;> rfl)
  rw [e0]
  exact .tail (.tail (.tail (.tail (.tail (.tail (.tail .refl h1) h2) h3)
    h4) h5) h6) h7

end Stampede

/-! ## Helper lemmas for the backend models -/

theorem alookup_aset_self {α : Type} (l : List (String × α)) (k : String)
    (v : α) : alookup (aset l k v) k = some v := by
  simp [aset, alookup]

theorem alookup_aset_ne {α : Type} (l : List (String × α)) (k k2 : String)
    (v : α) (h : ¬ k = k2) : alookup (aset l k v) k2 = alookup l k2 := by
  simp [aset, alookup, h]

theorem alookup_adel_self {α : Type} (l : List (String × α)) (k : String) :
    alookup (adel l k) k = none := by
  induction l with
  | nil => rfl
  | cons p rest ih =>
    obtain ⟨k3, v⟩ := p
    by_cases h3 : k3 = k
    · rw [adel, if_pos h3]
      exact ih
    · rw [adel, if_neg h3, alookup, if_neg h3]
      exact ih

theorem alookup_adel_ne {α : Type} (l : List (String × α)) (k k2 : String)
    (h : ¬ k = k2) : alookup (adel l k) k2 = alookup l k2 := by
  induction l with
  | nil => rfl
  | cons p rest ih =>
    obtain ⟨k3, v⟩ := p
    by_cases h3 : k3 = k
    · have h6 : ¬ k3 = k2 := by rw [h3]; exact h
      simp [adel, alookup, h3, h6, h, ih]
    · by_cases h5 : k3 = k2
      · have h7 : ¬ k2 = k := fun hh => h hh.symm
        simp [adel, alookup, h3, h5, h7]
      · simp [adel, alookup, h3, h5, ih]

theorem rliveGet_some_alookup {s : RState} {k : String} {en : REntry}
    (h : rliveGet s k = some en) : alookup s.kv k = some en := by
  rw [rliveGet] at h
  split at h
  · exact Option.noConfusion h
  · rename_i e heq
    rw [heq]
    split at h
    · exact h
    · split at h
      · exact Option.noConfusion h
      · exact h

/-! ## Claim theorems -/

/-- Claim C1: on the networked backend, when any number of callers
concurrently run SaveRaw for the same missing key (with a compute function
succeeding with payload v), at most one caller ever executes the compute
function in any reachable state; and once any caller observes a cache hit,
the hit carries the computed payload and exactly one caller has executed
compute. -/
theorem C1_stampede_single_compute {n : Nat} (v : Bytes) (s : Stampede.Sys n)
    (h : Stampede.Reach v (Stampede.init n) s) :
    (∀ i j, Stampede.computedF (s.pc i) = true →
      Stampede.computedF (s.pc j) = true → i = j) ∧
    (∀ i b, s.pc i = .doneHit b →
      b = v ∧ ∃! j, Stampede.computedF (s.pc j) = true) := by
  have inv := Stampede.inv_reach h
  refine ⟨inv.uniq, ?_⟩
  intro i b hhit
  obtain ⟨hbv, hdv⟩ := inv.hitInv i b (Or.inl hhit)
  obtain ⟨-, j, hj⟩ := inv.dataInv v hdv
  exact ⟨hbv, j, hj, fun y hy => inv.uniq y j hy hj⟩

/-- Witness for C1: the concrete two-caller interleaving in which caller 0
misses, locks, computes and persists, and caller 1 then observes a hit. -/
theorem C1_stampede_single_compute_witness :
    Stampede.c1final.pc 1 = .doneHit [7] ∧
    ([7] : Bytes) = [7] ∧
    (∃! j : Fin 2, Stampede.computedF (Stampede.c1final.pc j) = true) := by
  have h := (C1_stampede_single_compute [7] Stampede.c1final
    Stampede.c1_reach).2 1 [7] rfl
  exact ⟨rfl, h.1, h.2⟩

/-- Claim C3: on both backends, with ForceRefresh unset and a cache hit,
SaveRaw returns the cached payload from the read alone: the state is
unchanged and the trace is the single GetRaw — no Lock, Unlock or compute
call happens. -/
theorem C3_hit_fast_path (cm : MemCfg) (sm : MemState) (cr : RCfg)
    (sr : RState) (key : String) (fn : Except Err Bytes) (exp fuel : Nat)
    (opts : SaveOpts) (hforce : opts.forceRefresh = false) :
    (∀ d, memGetRaw cm sm key = .ok d →
      memSaveRaw cm sm key fn exp opts = (.ok d, sm, [.getRaw])) ∧
    (∀ d, redisGetRaw cr sr key = .ok d →
      redisSaveRaw cr (fuel + 1) sr key fn exp opts = (.ok d, sr, [.getRaw])) := by
  constructor
  · intro d hget
    simp [memSaveRaw, hforce, hget]
  · intro d hget
    simp [redisSaveRaw, hforce, hget]

/-- Witness for C3 at concrete one-entry stores. -/
theorem C3_hit_fast_path_witness :
    memSaveRaw ⟨"m:", "L:"⟩ ⟨[("m:k", ⟨[1], none⟩)], [], 0, 0, false⟩ "k"
        (.error (.appErr 0)) 1000000000 {}
      = (.ok [1], ⟨[("m:k", ⟨[1], none⟩)], [], 0, 0, false⟩, [.getRaw]) ∧
    redisSaveRaw ⟨"r:", "RL:"⟩ (0 + 1) ⟨[("r:k", ⟨[2], none⟩)], 0, 0, false⟩ "k"
        (.error (.appErr 0)) 1000000000 {}
      = (.ok [2], ⟨[("r:k", ⟨[2], none⟩)], 0, 0, false⟩, [.getRaw]) := by
  have h := C3_hit_fast_path ⟨"m:", "L:"⟩ ⟨[("m:k", ⟨[1], none⟩)], [], 0, 0, false⟩
    ⟨"r:", "RL:"⟩ ⟨[("r:k", ⟨[2], none⟩)], 0, 0, false⟩ "k" (.error (.appErr 0))
    1000000000 0 {} rfl
  exact ⟨h.1 [1] rfl, h.2 [2] rfl⟩

/-- Claim C2 (code bug): on the networked backend ForceRefresh does not
bypass every cache read: the anti-stampede re-check after the lock wins, so
with the key present SaveRaw returns the previously cached value and never
invokes the compute function, although WithForceRefresh documents that fn
is always called. Here the cache holds payload one, compute would return
payload two, yet the call yields payload one and no compute event. -/
theorem C2_force_refresh_redis_returns_cached :
    (redisSaveRaw ⟨"r:", "RL:"⟩ 1 ⟨[("r:k", ⟨[1], none⟩)], 0, 0, false⟩ "k"
        (.ok [2]) 10000000000 { forceRefresh := true }).1 = .ok [1] ∧
    Event.computeCall ∉
      (redisSaveRaw ⟨"r:", "RL:"⟩ 1 ⟨[("r:k", ⟨[1], none⟩)], 0, 0, false⟩ "k"
        (.ok [2]) 10000000000 { forceRefresh := true }).2.2 := by
  constructor
  · rfl
  · decide

/-- Claim C9 counterexample: constructing with the networked kind and no
client handle fails, but with the ad hoc error produced by errors.New at
that site, which is a different error value from the ErrInvalidParams
sentinel of the published taxonomy. -/
theorem C9_no_client_error_not_invalid_params :
    cacheNew [withRedis false] = .error (.newErr "cache: redis client is required") ∧
    Err.newErr "cache: redis client is required" ≠ Err.invalidParams := by
  constructor
  · rfl
  · decide

/-- Claim C9 (amended): whenever the folded options select the networked
kind without a client handle, construction fails with the dedicated
client-required error (not the unused ErrInvalidParams sentinel). -/
theorem C9_no_client_fails (os : List (COptions → COptions))
    (h1 : (os.foldl (fun a f => f a) ({} : COptions)).typ = .redisCache)
    (h2 : (os.foldl (fun a f => f a) ({} : COptions)).hasRedisClient = false) :
    cacheNew os = .error (.newErr "cache: redis client is required") := by
  simp [cacheNew, newRedisCache, h1, h2, Except.map]

/-- Witness for C9 (amended) at a concrete option list. -/
theorem C9_no_client_fails_witness :
    cacheNew [withKeyPre "a", withRedis false]
      = .error (.newErr "cache: redis client is required") :=
  C9_no_client_fails [withKeyPre "a", withRedis false] rfl rfl

/-- Claim C10: memoryCache.Set truncates the expiration to whole seconds,
so every positive sub-second expiration is stored as a zero-second TTL and
the entry never expires (at any later time GetRaw still hits); SaveRaw
persisting under such an expiration stores the same never-expiring entry. -/
theorem C10_subsecond_expiration_never_expires (cm : MemCfg) (sm : MemState)
    (key : String) (data : Bytes) (e : Nat) (h1 : 0 < e)
    (h2 : e < 1000000000) (hsf : sm.setFails = false) :
    (memSet cm sm key data e).1 = .ok () ∧
    alookup (memSet cm sm key data e).2.store (cm.keyPre ++ key)
      = some ⟨data, none⟩ ∧
    (∀ later, memGetRaw cm { (memSet cm sm key data e).2 with now := later }
      key = .ok data) ∧
    (memGetRaw cm sm key = .error .notFound → ∀ v2,
      (memSaveRaw cm sm key (.ok v2) e ⟨false, false, 0⟩).1 = .ok v2 ∧
      alookup (memSaveRaw cm sm key (.ok v2) e ⟨false, false, 0⟩).2.1.store
        (cm.keyPre ++ key) = some ⟨v2, none⟩) := by
  have hd0 : durSeconds e = 0 := Nat.div_eq_of_lt h2
  refine ⟨?_, ?_, ?_, ?_⟩
  · simp [memSet, fcSet, hsf]
  · simp [memSet, fcSet, hsf, hd0, h1, alookup_aset_self]
  · intro later
    simp [memSet, fcSet, hsf, hd0, h1, memGetRaw, fcGet, alookup_aset_self]
  · intro hmiss v2
    constructor
    · simp [memSaveRaw, memSaveRawCore, hmiss, memSet, fcSet, hsf]
    · simp [memSaveRaw, memSaveRawCore, hmiss, memSet, fcSet, hsf, hd0, h1,
        alookup_aset_self]

/-- Witness for C10 at a half-second expiration. -/
theorem C10_subsecond_expiration_never_expires_witness :
    (memSet ⟨"m:", "L:"⟩ ⟨[], [], 0, 0, false⟩ "k" [9] 500000000).1 = .ok () ∧
    alookup (memSet ⟨"m:", "L:"⟩ ⟨[], [], 0, 0, false⟩ "k" [9] 500000000).2.store
      ("m:" ++ "k") = some ⟨[9], none⟩ ∧
    (∀ later,
      memGetRaw ⟨"m:", "L:"⟩
        { (memSet ⟨"m:", "L:"⟩ ⟨[], [], 0, 0, false⟩ "k" [9] 500000000).2 with
          now := later } "k" = .ok [9]) ∧
    (memGetRaw ⟨"m:", "L:"⟩ ⟨[], [], 0, 0, false⟩ "k" = .error .notFound → ∀ v2,
      (memSaveRaw ⟨"m:", "L:"⟩ ⟨[], [], 0, 0, false⟩ "k" (.ok v2) 500000000
        ⟨false, false, 0⟩).1 = .ok v2 ∧
      alookup (memSaveRaw ⟨"m:", "L:"⟩ ⟨[], [], 0, 0, false⟩ "k" (.ok v2)
        500000000 ⟨false, false, 0⟩).2.1.store ("m:" ++ "k")
        = some ⟨v2, none⟩) :=
  C10_subsecond_expiration_never_expires ⟨"m:", "L:"⟩ ⟨[], [], 0, 0, false⟩
    "k" [9] 500000000 (by decide) (by decide) rfl

/-- Claim C4: on both backends an error from the compute function is
propagated exactly as returned and nothing is written to the cache: the
in-process call leaves the whole state untouched, and on the networked call
the data key, missing before, is still missing afterwards (the transient
anti-stampede lock is removed again by the deferred unlock). -/
theorem C4_compute_error_propagates (cm : MemCfg) (sm : MemState) (cr : RCfg)
    (sr : RState) (key : String) (e : Err) (exp fuel : Nat) (opts : SaveOpts)
    (hmem : opts.forceRefresh = true ∨ memGetRaw cm sm key = .error .notFound)
    (hdata : alookup sr.kv (cr.keyPre ++ key) = none)
    (hlock : alookup sr.kv (cr.lockPre ++ ("lock:" ++ key)) = none)
    (hne : ¬ cr.lockPre ++ ("lock:" ++ key) = cr.keyPre ++ key) :
    (memSaveRaw cm sm key (.error e) exp opts).1 = .error e ∧
    (memSaveRaw cm sm key (.error e) exp opts).2.1 = sm ∧
    (redisSaveRaw cr (fuel + 1) sr key (.error e) exp opts).1 = .error e ∧
    alookup (redisSaveRaw cr (fuel + 1) sr key (.error e) exp opts).2.1.kv
      (cr.keyPre ++ key) = none := by
  have hnl : ¬ (sr.now + 5000000000 ≤ sr.now) := by omega
  have hmem2 : memSaveRaw cm sm key (.error e) exp opts
      = (.error e, sm, (memSaveRaw cm sm key (.error e) exp opts).2.2) := by
    cases hof : opts.forceRefresh with
    | false =>
      rcases hmem with hmem | hmem
      · rw [hof] at hmem
        exact Bool.noConfusion hmem
      · simp [memSaveRaw, hof, hmem, memSaveRawCore]
    | true => simp [memSaveRaw, hof, memSaveRawCore]
  refine ⟨by rw [hmem2], by rw [hmem2], ?_, ?_⟩ <;>
    cases hof : opts.forceRefresh <;>
      simp [redisSaveRaw, redisSaveRawLocked, redisLock, redisGetRaw,
        redisUnlock, redisSet, rliveGet, tokenBytes, aset, alookup, adel,
        hof, hdata, hlock, hne, hnl, alookup_adel_ne _ _ _ hne]

/-- Witness for C4 at empty concrete stores. -/
theorem C4_compute_error_propagates_witness :
    (memSaveRaw ⟨"m:", "L:"⟩ ⟨[], [], 0, 0, false⟩ "k" (.error (.appErr 7))
      1000000000 {}).1 = .error (.appErr 7) ∧
    (memSaveRaw ⟨"m:", "L:"⟩ ⟨[], [], 0, 0, false⟩ "k" (.error (.appErr 7))
      1000000000 {}).2.1 = ⟨[], [], 0, 0, false⟩ ∧
    (redisSaveRaw ⟨"r:", "RL:"⟩ (0 + 1) ⟨[], 0, 0, false⟩ "k"
      (.error (.appErr 7)) 1000000000 {}).1 = .error (.appErr 7) ∧
    alookup (redisSaveRaw ⟨"r:", "RL:"⟩ (0 + 1) ⟨[], 0, 0, false⟩ "k"
      (.error (.appErr 7)) 1000000000 {}).2.1.kv ("r:" ++ "k") = none :=
  C4_compute_error_propagates ⟨"m:", "L:"⟩ ⟨[], [], 0, 0, false⟩
    ⟨"r:", "RL:"⟩ ⟨[], 0, 0, false⟩ "k" (.appErr 7) 1000000000 0 {}
    (Or.inr rfl) rfl rfl (by decide)

/-- Claim C5 counterexample: when the compute function succeeds with
payload three but the persist step fails, SaveRaw does not return the
computed payload: it yields only the persist error. -/
theorem C5_persist_failure_counterexample :
    (memSaveRaw ⟨"m:", "L:"⟩ ⟨[], [], 0, 0, true⟩ "k" (.ok [3]) 1000000000
      {}).1 = .error (.wrapped "cache: failed to set value in freecache") ∧
    (memSaveRaw ⟨"m:", "L:"⟩ ⟨[], [], 0, 0, true⟩ "k" (.ok [3]) 1000000000
      {}).1 ≠ .ok [3] := by
  refine ⟨rfl, ?_⟩
  intro h
  exact Except.noConfusion h

/-- Claim C5 (amended): when the compute function succeeds but the persist
step fails, both backends surface the persist error to the caller; the
computed payload is not returned. -/
theorem C5_persist_failure_surfaces_error (cm : MemCfg) (sm : MemState)
    (cr : RCfg) (sr : RState) (key : String) (v : Bytes) (exp fuel : Nat)
    (opts : SaveOpts)
    (hmem : opts.forceRefresh = true ∨ memGetRaw cm sm key = .error .notFound)
    (hmfail : sm.setFails = true)
    (hdata : alookup sr.kv (cr.keyPre ++ key) = none)
    (hlock : alookup sr.kv (cr.lockPre ++ ("lock:" ++ key)) = none)
    (hne : ¬ cr.lockPre ++ ("lock:" ++ key) = cr.keyPre ++ key)
    (hrfail : sr.setFails = true) :
    (memSaveRaw cm sm key (.ok v) exp opts).1
      = .error (.wrapped "cache: failed to set value in freecache") ∧
    (redisSaveRaw cr (fuel + 1) sr key (.ok v) exp opts).1 = .error .netFail := by
  constructor
  · cases hof : opts.forceRefresh with
    | false =>
      rcases hmem with hmem | hmem
      · rw [hof] at hmem
        exact Bool.noConfusion hmem
      · simp [memSaveRaw, hof, hmem, memSaveRawCore, memSet, fcSet, hmfail]
    | true => simp [memSaveRaw, hof, memSaveRawCore, memSet, fcSet, hmfail]
  · cases hof : opts.forceRefresh <;>
      simp [redisSaveRaw, redisSaveRawLocked, redisLock, redisGetRaw,
        redisUnlock, redisSet, rliveGet, tokenBytes, aset, alookup,
        hof, hdata, hlock, hne, hrfail]

/-- Witness for C5 (amended) with the failure flag raised on both stores. -/
theorem C5_persist_failure_surfaces_error_witness :
    (memSaveRaw ⟨"m:", "L:"⟩ ⟨[], [], 0, 0, true⟩ "k" (.ok [4]) 1000000000
      {}).1 = .error (.wrapped "cache: failed to set value in freecache") ∧
    (redisSaveRaw ⟨"r:", "RL:"⟩ (0 + 1) ⟨[], 0, 0, true⟩ "k" (.ok [4])
      1000000000 {}).1 = .error .netFail :=
  C5_persist_failure_surfaces_error ⟨"m:", "L:"⟩ ⟨[], [], 0, 0, true⟩
    ⟨"r:", "RL:"⟩ ⟨[], 0, 0, true⟩ "k" [4] 1000000000 0 {}
    (Or.inr rfl) rfl rfl rfl (by decide) rfl

/-- Claim C6: on both backends Unlock succeeds exactly when the supplied
token matches the live lock record, and on any mismatch — including an
absent or expired record — it returns the LockNotOwned error with the state
unchanged, never silently succeeding. -/
theorem C6_unlock_owner_only (cm : MemCfg) (sm : MemState) (cr : RCfg)
    (sr : RState) (key : String) (tm : Nat) (tr : Bytes) :
    ((memUnlock cm sm key tm).1 = .ok () ↔
      alookup sm.locks (cm.lockPre ++ key) = some tm) ∧
    (alookup sm.locks (cm.lockPre ++ key) ≠ some tm →
      memUnlock cm sm key tm = (.error .lockNotOwned, sm)) ∧
    ((redisUnlock cr sr key tr).1 = .ok () ↔
      (rliveGet sr (cr.lockPre ++ key)).map REntry.val = some tr) ∧
    ((rliveGet sr (cr.lockPre ++ key)).map REntry.val ≠ some tr →
      redisUnlock cr sr key tr = (.error .lockNotOwned, sr)) := by
  refine ⟨?_, ?_, ?_, ?_⟩
  · simp only [memUnlock]
    cases h : alookup sm.locks (cm.lockPre ++ key) with
    | none => simp
    | some t =>
      by_cases ht : t = tm
      · subst ht
        simp
      · simp [ht, Ne.symm ht]
  · intro hne2
    simp only [memUnlock]
    cases h : alookup sm.locks (cm.lockPre ++ key) with
    | none => rfl
    | some t =>
      rw [h] at hne2
      have ht : ¬ t = tm := fun hh => hne2 (by rw [hh])
      simp [ht]
  · simp only [redisUnlock]
    cases h : rliveGet sr (cr.lockPre ++ key) with
    | none => simp
    | some en =>
      by_cases hv : en.val = tr
      · simp [hv]
      · simp [hv]
  · intro hne2
    simp only [redisUnlock]
    cases h : rliveGet sr (cr.lockPre ++ key) with
    | none => rfl
    | some en =>
      rw [h] at hne2
      have hv : ¬ en.val = tr := fun hh => hne2 (by rw [Option.map, hh])
      simp [hv]

/-- Witness for C6: a held memory lock probed with a wrong token, and a held
networked lock probed with a wrong token. -/
theorem C6_unlock_owner_only_witness :
    ((memUnlock ⟨"m:", "L:"⟩ ⟨[], [("L:" ++ "k", 5)], 6, 0, false⟩ "k" 6).1
        = .ok () ↔
      alookup [("L:" ++ "k", 5)] ("L:" ++ "k") = some 6) ∧
    (memUnlock ⟨"m:", "L:"⟩ ⟨[], [("L:" ++ "k", 5)], 6, 0, false⟩ "k" 6
      = (.error .lockNotOwned, ⟨[], [("L:" ++ "k", 5)], 6, 0, false⟩)) ∧
    ((redisUnlock ⟨"r:", "RL:"⟩ ⟨[("RL:" ++ "k", ⟨[5], none⟩)], 6, 0, false⟩
        "k" [6]).1 = .ok () ↔
      (rliveGet ⟨[("RL:" ++ "k", ⟨[5], none⟩)], 6, 0, false⟩
        ("RL:" ++ "k")).map REntry.val = some [6]) ∧
    (redisUnlock ⟨"r:", "RL:"⟩ ⟨[("RL:" ++ "k", ⟨[5], none⟩)], 6, 0, false⟩
        "k" [6]
      = (.error .lockNotOwned, ⟨[("RL:" ++ "k", ⟨[5], none⟩)], 6, 0, false⟩)) := by
  have h := C6_unlock_owner_only ⟨"m:", "L:"⟩
    ⟨[], [("L:" ++ "k", 5)], 6, 0, false⟩ ⟨"r:", "RL:"⟩
    ⟨[("RL:" ++ "k", ⟨[5], none⟩)], 6, 0, false⟩ "k" 6 [6]
  refine ⟨h.1, h.2.1 ?_, h.2.2.1, h.2.2.2 ?_⟩
  · intro hx
    rw [show alookup [("L:" ++ "k", 5)] ("L:" ++ "k") = some 5 from rfl] at hx
    injection hx with hx2
    exact absurd hx2 (by decide)
  · intro hx
    rw [show (rliveGet ⟨[("RL:" ++ "k", ⟨[5], none⟩)], 6, 0, false⟩
      ("RL:" ++ "k")).map REntry.val = some [5] from rfl] at hx
    injection hx with hx2
    exact absurd hx2 (by decide)

/-- Claim C7: a lock is held by at most one token at a time: while a live
record holds the key, Lock fails with LockAlreadyAcquired and the holder is
unchanged; after the holder unlocks successfully, Lock succeeds again and
hands out a freshly generated token distinct from the released one. -/
theorem C7_lock_mutual_exclusion (cm : MemCfg) (sm : MemState) (cr : RCfg)
    (sr : RState) (key : String) (exp : Nat) (tm : Nat) (tr : Bytes)
    (hm : alookup sm.locks (cm.lockPre ++ key) = some tm)
    (hwfm : memWF sm)
    (hr : (rliveGet sr (cr.lockPre ++ key)).map REntry.val = some tr)
    (hwfr : redisWF sr) :
    memLock cm sm key exp = (.error .lockAcquired, sm) ∧
    (redisLock cr sr key exp).1 = .error .lockAcquired ∧
    (redisLock cr sr key exp).2.kv = sr.kv ∧
    (memUnlock cm sm key tm).1 = .ok () ∧
    (memLock cm (memUnlock cm sm key tm).2 key exp).1
      = .ok (memUnlock cm sm key tm).2.tokenCtr ∧
    (memUnlock cm sm key tm).2.tokenCtr ≠ tm ∧
    (redisUnlock cr sr key tr).1 = .ok () ∧
    (redisLock cr (redisUnlock cr sr key tr).2 key exp).1
      = .ok (tokenBytes (redisUnlock cr sr key tr).2.tokenCtr) ∧
    tokenBytes (redisUnlock cr sr key tr).2.tokenCtr ≠ tr := by
  obtain ⟨en, hen, hval⟩ :
      ∃ en, rliveGet sr (cr.lockPre ++ key) = some en ∧ en.val = tr := by
    cases h2 : rliveGet sr (cr.lockPre ++ key) with
    | none => rw [h2] at hr; exact Option.noConfusion hr
    | some en2 =>
      rw [h2] at hr
      exact ⟨en2, rfl, Option.some.inj hr⟩
  have hen2 : rliveGet { sr with tokenCtr := sr.tokenCtr + 1 }
      (cr.lockPre ++ key) = some en := hen
  have hu : memUnlock cm sm key tm
      = (.ok (), { sm with locks := adel sm.locks (cm.lockPre ++ key) }) := by
    simp [memUnlock, hm]
  have hu2 : redisUnlock cr sr key tr
      = (.ok (), { sr with kv := adel sr.kv (cr.lockPre ++ key) }) := by
    simp [redisUnlock, hen, hval]
  refine ⟨?_, ?_, ?_, ?_, ?_, ?_, ?_, ?_, ?_⟩
  · simp [memLock, hm]
  · simp [redisLock, hen2]
  · simp [redisLock, hen2]
  · rw [hu]
  · rw [hu]
    simp [memLock, alookup_adel_self]
  · rw [hu]
    have hlt := hwfm _ _ hm
    simp only []
    omega
  · rw [hu2]
  · rw [hu2]
    simp [redisLock, rliveGet, alookup_adel_self]
  · rw [hu2]
    intro hEq
    have halook := rliveGet_some_alookup hen
    exact absurd (hwfr _ en sr.tokenCtr halook (hval.trans hEq.symm))
      (Nat.lt_irrefl _)

/-- Witness for C7 at a one-lock store with a well-formed token counter. -/
theorem C7_lock_mutual_exclusion_witness :
    memLock ⟨"m:", "L:"⟩ ⟨[], [("L:" ++ "k", 3)], 4, 0, false⟩ "k" 1000000000
      = (.error .lockAcquired, ⟨[], [("L:" ++ "k", 3)], 4, 0, false⟩) ∧
    (redisLock ⟨"r:", "RL:"⟩ ⟨[("RL:" ++ "k", ⟨[3], none⟩)], 4, 0, false⟩ "k"
      1000000000).1 = .error .lockAcquired ∧
    (redisLock ⟨"r:", "RL:"⟩ ⟨[("RL:" ++ "k", ⟨[3], none⟩)], 4, 0, false⟩ "k"
      1000000000).2.kv = [("RL:" ++ "k", ⟨[3], none⟩)] ∧
    (memUnlock ⟨"m:", "L:"⟩ ⟨[], [("L:" ++ "k", 3)], 4, 0, false⟩ "k" 3).1
      = .ok () ∧
    (memLock ⟨"m:", "L:"⟩
      (memUnlock ⟨"m:", "L:"⟩ ⟨[], [("L:" ++ "k", 3)], 4, 0, false⟩ "k" 3).2
      "k" 1000000000).1
      = .ok (memUnlock ⟨"m:", "L:"⟩ ⟨[], [("L:" ++ "k", 3)], 4, 0, false⟩
        "k" 3).2.tokenCtr ∧
    (memUnlock ⟨"m:", "L:"⟩ ⟨[], [("L:" ++ "k", 3)], 4, 0, false⟩ "k"
      3).2.tokenCtr ≠ 3 ∧
    (redisUnlock ⟨"r:", "RL:"⟩ ⟨[("RL:" ++ "k", ⟨[3], none⟩)], 4, 0, false⟩
      "k" [3]).1 = .ok () ∧
    (redisLock ⟨"r:", "RL:"⟩
      (redisUnlock ⟨"r:", "RL:"⟩ ⟨[("RL:" ++ "k", ⟨[3], none⟩)], 4, 0, false⟩
        "k" [3]).2 "k" 1000000000).1
      = .ok (tokenBytes (redisUnlock ⟨"r:", "RL:"⟩
        ⟨[("RL:" ++ "k", ⟨[3], none⟩)], 4, 0, false⟩ "k" [3]).2.tokenCtr) ∧
    tokenBytes (redisUnlock ⟨"r:", "RL:"⟩
      ⟨[("RL:" ++ "k", ⟨[3], none⟩)], 4, 0, false⟩ "k" [3]).2.tokenCtr
      ≠ [3] := by
  refine C7_lock_mutual_exclusion ⟨"m:", "L:"⟩
    ⟨[], [("L:" ++ "k", 3)], 4, 0, false⟩ ⟨"r:", "RL:"⟩
    ⟨[("RL:" ++ "k", ⟨[3], none⟩)], 4, 0, false⟩ "k" 1000000000 3 [3]
    rfl ?_ rfl ?_
  · intro k t h
    simp only [alookup] at h
    split at h
    · injection h with h2
      show t < 4
      omega
    · exact Option.noConfusion h
  · intro k en n h hv
    simp only [alookup] at h
    split at h
    · injection h with h2
      rw [← h2] at hv
      simp only [tokenBytes] at hv
      injection hv with ha hb
      show n < 4
      omega
    · exact Option.noConfusion h

/-- Claim C8 counterexample: on the in-process backend a sub-second
negative-cache expiration is truncated to zero whole seconds, so the stored
empty marker never expires rather than expiring after about the requested
half second: one million seconds later the key still exists (the normal
expiration was ten seconds). -/
theorem C8_subsecond_negative_expiration_counterexample :
    (memSaveRaw ⟨"m:", "L:"⟩ ⟨[], [], 0, 0, false⟩ "q" (.ok []) 10000000000
      ⟨false, true, 500000000⟩).1 = .ok [] ∧
    memExists ⟨"m:", "L:"⟩
      { (memSaveRaw ⟨"m:", "L:"⟩ ⟨[], [], 0, 0, false⟩ "q" (.ok []) 10000000000
          ⟨false, true, 500000000⟩).2.1 with now := 1000000 } "q"
      = .ok true := by
  constructor
  · rfl
  · rfl

/-- Claim C8 (amended): when the compute result is empty and
PreventCacheMiss carries a negative-cache expiration e, both backends store
the empty payload under e instead of the normal expiration, so the key then
exists immediately and expires once e has elapsed — on the in-process
backend provided e is at least one whole second (a sub-second e truncates to
a never-expiring entry), on the networked backend for any positive e. -/
theorem C8_prevent_cache_miss_negative_expiration (cm : MemCfg)
    (sm : MemState) (cr : RCfg) (sr : RState) (key : String)
    (e exp fuel : Nat)
    (hmiss : memGetRaw cm sm key = .error .notFound)
    (hmsf : sm.setFails = false)
    (hme : 1 ≤ durSeconds e)
    (hdata : alookup sr.kv (cr.keyPre ++ key) = none)
    (hlockr : alookup sr.kv (cr.lockPre ++ ("lock:" ++ key)) = none)
    (hner : ¬ cr.lockPre ++ ("lock:" ++ key) = cr.keyPre ++ key)
    (hrsf : sr.setFails = false)
    (hre : 0 < e) :
    (memSaveRaw cm sm key (.ok []) exp ⟨false, true, e⟩).1 = .ok [] ∧
    alookup (memSaveRaw cm sm key (.ok []) exp ⟨false, true, e⟩).2.1.store
      (cm.keyPre ++ key) = some ⟨[], some (sm.now + durSeconds e)⟩ ∧
    memExists cm (memSaveRaw cm sm key (.ok []) exp ⟨false, true, e⟩).2.1 key
      = .ok true ∧
    memGetRaw cm
      { (memSaveRaw cm sm key (.ok []) exp ⟨false, true, e⟩).2.1 with
        now := sm.now + durSeconds e } key = .error .notFound ∧
    (redisSaveRaw cr (fuel + 1) sr key (.ok []) exp ⟨false, true, e⟩).1
      = .ok [] ∧
    alookup (redisSaveRaw cr (fuel + 1) sr key (.ok []) exp
        ⟨false, true, e⟩).2.1.kv (cr.keyPre ++ key)
      = some ⟨[], some (sr.now + e)⟩ ∧
    redisExists cr (redisSaveRaw cr (fuel + 1) sr key (.ok []) exp
        ⟨false, true, e⟩).2.1 key = .ok true ∧
    redisGetRaw cr
      { (redisSaveRaw cr (fuel + 1) sr key (.ok []) exp ⟨false, true, e⟩).2.1
        with now := sr.now + e } key = .error .notFound := by
  have h0e : 0 < durSeconds e := hme
  have hq : ¬ (sm.now + durSeconds e ≤ sm.now) := by omega
  have hnl : ¬ (sr.now + 5000000000 ≤ sr.now) := by omega
  have hpe : ¬ (sr.now + e ≤ sr.now) := by omega
  have hner2 : ¬ cr.keyPre ++ key = cr.lockPre ++ ("lock:" ++ key) :=
    fun hh => hner hh.symm
  have hm1 : memSaveRaw cm sm key (.ok []) exp ⟨false, true, e⟩
      = (.ok [],
         { sm with store := (aset sm.store (cm.keyPre ++ key) ⟨[], some (sm.now + durSeconds e)⟩) },
         [.getRaw, .computeCall, .setCall]) := by
    simp [memSaveRaw, hmiss, memSaveRawCore, memSet, fcSet, hmsf, hre, h0e]
  refine ⟨?_, ?_, ?_, ?_, ?_, ?_, ?_, ?_⟩
  · rw [hm1]
  · rw [hm1]
    simp [alookup_aset_self]
  · rw [hm1]
    simp [memExists, fcGet, aset, alookup, hq]
  · rw [hm1]
    simp [memGetRaw, fcGet, aset, alookup]
  all_goals
    simp [redisSaveRaw, redisSaveRawLocked, redisLock, redisGetRaw, redisSet,
      redisUnlock, redisExists, rliveGet, tokenBytes, aset, alookup, adel,
      hdata, hlockr, hner, hner2, hrsf, hre, hnl, hpe]

/-- Witness for C8 (amended) with a two-second negative expiration and a
ten-second normal expiration on empty concrete stores. -/
theorem C8_prevent_cache_miss_negative_expiration_witness :
    (memSaveRaw ⟨"m:", "L:"⟩ ⟨[], [], 0, 0, false⟩ "q" (.ok []) 10000000000
      ⟨false, true, 2000000000⟩).1 = .ok [] ∧
    alookup (memSaveRaw ⟨"m:", "L:"⟩ ⟨[], [], 0, 0, false⟩ "q" (.ok [])
        10000000000 ⟨false, true, 2000000000⟩).2.1.store ("m:" ++ "q")
      = some ⟨[], some (0 + durSeconds 2000000000)⟩ ∧
    memExists ⟨"m:", "L:"⟩ (memSaveRaw ⟨"m:", "L:"⟩ ⟨[], [], 0, 0, false⟩ "q"
      (.ok []) 10000000000 ⟨false, true, 2000000000⟩).2.1 "q" = .ok true ∧
    memGetRaw ⟨"m:", "L:"⟩
      { (memSaveRaw ⟨"m:", "L:"⟩ ⟨[], [], 0, 0, false⟩ "q" (.ok [])
          10000000000 ⟨false, true, 2000000000⟩).2.1 with
        now := 0 + durSeconds 2000000000 } "q" = .error .notFound ∧
    (redisSaveRaw ⟨"r:", "RL:"⟩ (0 + 1) ⟨[], 0, 0, false⟩ "q" (.ok [])
      10000000000 ⟨false, true, 2000000000⟩).1 = .ok [] ∧
    alookup (redisSaveRaw ⟨"r:", "RL:"⟩ (0 + 1) ⟨[], 0, 0, false⟩ "q"
        (.ok []) 10000000000 ⟨false, true, 2000000000⟩).2.1.kv ("r:" ++ "q")
      = some ⟨[], some (0 + 2000000000)⟩ ∧
    redisExists ⟨"r:", "RL:"⟩ (redisSaveRaw ⟨"r:", "RL:"⟩ (0 + 1)
      ⟨[], 0, 0, false⟩ "q" (.ok []) 10000000000
      ⟨false, true, 2000000000⟩).2.1 "q" = .ok true ∧
    redisGetRaw ⟨"r:", "RL:"⟩
      { (redisSaveRaw ⟨"r:", "RL:"⟩ (0 + 1) ⟨[], 0, 0, false⟩ "q" (.ok [])
          10000000000 ⟨false, true, 2000000000⟩).2.1 with
        now := 0 + 2000000000 } "q" = .error .notFound :=
  C8_prevent_cache_miss_negative_expiration ⟨"m:", "L:"⟩ ⟨[], [], 0, 0, false⟩
    ⟨"r:", "RL:"⟩ ⟨[], 0, 0, false⟩ "q" 2000000000 10000000000 0
    rfl rfl (by decide) rfl rfl (by decide) rfl (by decide)

end GkitCache
